import Mathlib

/-!
# Verification of the vlrx scraper/analyzer

Shallow embedding of the vlrx crate (src/lib.rs, src/main.rs): the domain
model (`Map`, `Agent`, `Player`, `Team`, `Match`), the composition-frequency
analyzer (`analyze_meta`), the per-document match extractor
(`parse_matches`), the crawler's fetch/delay trace (`scrape_url`,
`parse_event`), and the serde JSON round-trip for the persisted dataset.

Modelling conventions:
- Rust `HashMap` values are embedded as association lists in insertion
  order (`entry/or_insert` appends a fresh key, `insert` replaces the value
  of an existing key); every property proved here is insensitive to the
  iteration order a real `HashMap` would exhibit, or is proved under the
  key-uniqueness invariant that a `HashMap` guarantees.
- Rust `f64` rates are embedded as exact rationals `ℚ`; division by zero in
  `ℚ` yields `0` where `f64` would yield `NaN`, so the divisor-nonzero facts
  are proved separately.
- `u32` is embedded as `Nat` together with an explicit `< 2 ^ 32` bound in
  the numeric parser.
-/

namespace Vlrx

/-- `Map` from src/lib.rs: a playable arena, identified by name. -/
structure Map where
  name : String
deriving DecidableEq

/-- `Agent` from src/lib.rs: a selectable character, identified by name
(`Ord` derives name order). -/
structure Agent where
  name : String
deriving DecidableEq

/-- `Player` from src/lib.rs: a competitor, identified by name. -/
structure Player where
  name : String
deriving DecidableEq

/-- `Team` from src/lib.rs: team name plus roster in extraction order. -/
structure Team where
  name : String
  players : List Player
deriving DecidableEq

/-- `Match` from src/lib.rs. `agents : HashMap<Player, Agent>` is embedded
as an association list in insertion order. -/
structure Match where
  map : Map
  team_won : Team
  team_lost : Team
  won_score : Nat
  lost_score : Nat
  agents : List (Player × Agent)
deriving DecidableEq

/-- The derived `Ord` on `Agent`: lexicographic on the single `name` field. -/
def agentLE (a b : Agent) : Prop := a.name ≤ b.name

instance : DecidableRel agentLE := fun a b => inferInstanceAs (Decidable (a.name ≤ b.name))

instance : IsTotal Agent agentLE := ⟨fun a b => le_total a.name b.name⟩

instance : IsTrans Agent agentLE := ⟨fun _ _ _ h h' => le_trans h h'⟩

instance : IsAntisymm Agent agentLE :=
  ⟨fun a b h h' => by cases a; cases b; simp only [Agent.mk.injEq]; exact le_antisymm h h'⟩

/-- `Vec::sort` on a `Vec<&Agent>` (src/main.rs lines 112/118): sorts by the
derived name order. Any correct sort computes the same list (sorted
permutation of a list under an antisymmetric total order is unique), so the
Mathlib insertion sort embeds it faithfully. -/
def sortAgents (l : List Agent) : List Agent := l.insertionSort agentLE

/-- `comp1` in `analyze_meta` (src/main.rs lines 107-112): the sorted agents
of the winning roster, looked up through the match's `agents` mapping. -/
def comp1 (m : Match) : List Agent :=
  sortAgents ((m.agents.filter (fun kv => kv.1 ∈ m.team_won.players)).map Prod.snd)

/-- `comp2` in `analyze_meta` (src/main.rs lines 113-118): the sorted agents
of the losing roster. -/
def comp2 (m : Match) : List Agent :=
  sortAgents ((m.agents.filter (fun kv => kv.1 ∈ m.team_lost.players)).map Prod.snd)

/-- `map_meta.entry(k).and_modify(|e| *e += 1).or_insert(1)` (src/main.rs
lines 119-120) on the association-list embedding of the frequency table. -/
def bump (tbl : List ((Map × List Agent) × Nat)) (k : Map × List Agent) :
    List ((Map × List Agent) × Nat) :=
  match tbl with
  | [] => [(k, 1)]
  | (k', c) :: rest => if k' = k then (k', c + 1) :: rest else (k', c) :: bump rest k

/-- One iteration of the frequency-table building loop (src/main.rs lines
106-121): the match bumps `(map, comp1)` then `(map, comp2)`. -/
def bumpMatch (tbl : List ((Map × List Agent) × Nat)) (m : Match) :
    List ((Map × List Agent) × Nat) :=
  bump (bump tbl (m.map, comp1 m)) (m.map, comp2 m)

/-- The frequency-table building loop of `analyze_meta` (src/main.rs lines
105-121). -/
def buildTable (ms : List Match) : List ((Map × List Agent) × Nat) :=
  ms.foldl bumpMatch []

/-- `matches.iter().filter(|x| x.map.name == map).count() * 2` (src/main.rs
line 123). -/
def spec_map_matches_cnt (ms : List Match) (map : String) : Nat :=
  (ms.filter (fun x => x.map.name = map)).length * 2

/-- `analyze_meta` (src/main.rs lines 104-129): build the `(map, sorted
composition) -> count` table over all matches, keep the entries on the
requested map, divide each count by `2 × (matches on that map)`, and sort
ascending by rate. Rates are exact rationals in place of `f64`. -/
def analyze_meta (ms : List Match) (map : String) : List (List Agent × ℚ) :=
  let map_meta := buildTable ms
  let cnt := spec_map_matches_cnt ms map
  let spec_map_meta :=
    (map_meta.filter (fun e => e.1.1.name = map)).map
      (fun e => (e.1.2, (e.2 : ℚ) / (cnt : ℚ)))
  spec_map_meta.insertionSort (fun a b => a.2 ≤ b.2)

/-- Total count held by the frequency table for keys on map name `map`. -/
def countOn (tbl : List ((Map × List Agent) × Nat)) (map : String) : Nat :=
  ((tbl.filter (fun e => e.1.1.name = map)).map (fun e => e.2)).sum

/-- Concrete match used by witnesses: empty rosters, one map. -/
def wMatch : Match :=
  { map := ⟨"Ascent"⟩, team_won := ⟨"A", []⟩, team_lost := ⟨"B", []⟩
    won_score := 13, lost_score := 5, agents := [] }

/-- Concrete match used by the canonicalization witness. -/
def wMatchA : Match :=
  { map := ⟨"Bind"⟩, team_won := ⟨"A", [⟨"p1"⟩, ⟨"p2"⟩]⟩, team_lost := ⟨"B", [⟨"p3"⟩]⟩
    won_score := 13, lost_score := 5
    agents := [(⟨"p1"⟩, ⟨"Jett"⟩), (⟨"p2"⟩, ⟨"Sova"⟩), (⟨"p3"⟩, ⟨"Omen"⟩)] }

/-- `wMatchA` with the winning team's two agent associations listed in the
opposite order. -/
def wMatchB : Match :=
  { map := ⟨"Bind"⟩, team_won := ⟨"A", [⟨"p1"⟩, ⟨"p2"⟩]⟩, team_lost := ⟨"B", [⟨"p3"⟩]⟩
    won_score := 13, lost_score := 5
    agents := [(⟨"p2"⟩, ⟨"Sova"⟩), (⟨"p1"⟩, ⟨"Jett"⟩), (⟨"p3"⟩, ⟨"Omen"⟩)] }

/-! ## Page extractor model

`parse_matches` (src/main.rs lines 192-324) is embedded over a document
model that records, for each selected fragment, exactly the pieces the
extractor reads. `Option` marks an element/text/attribute that may be
absent; the Rust code `unwrap`s or `expect`s these, so the embedding turns
each such panic (and each `?`-propagated parse error) into an `Except`
error that aborts the whole document. -/

/-- `str::trim`: drop whitespace from both ends. (`String.trim` in core
does not kernel-reduce, so the model uses this executable equivalent.) -/
def trimStr (s : String) : String :=
  ⟨((s.toList.dropWhile Char.isWhitespace).reverse.dropWhile Char.isWhitespace).reverse⟩

/-- `str::parse::<u32>`: optional leading `+`, then one or more ASCII
digits, value below `2 ^ 32`; anything else fails (`none`). -/
def parseU32 (s : String) : Option Nat :=
  let ds := if s.toList.head? = some '+' then s.toList.drop 1 else s.toList
  if ds ≠ [] ∧ ds.all Char.isDigit then
    let v := ds.foldl (fun a c => a * 10 + (c.toNat - 48)) 0
    if v < 2 ^ 32 then some v else none
  else none

/-- One roster row (`tbody>tr`): first text of the `.mod-player .text-of`
element, and the `title` attribute of the `.mod-agent img` element. -/
structure PlayerRow where
  nameText : Option String
  agentTitle : Option String
deriving DecidableEq

/-- One `.team` fragment of a game-tab header. `winScoreText` is the first
`.score.mod-win` descendant (outer `Option`: element present?) together
with its first text node (inner `Option`); `scoreText` likewise for the
first `.score` descendant; `teamName` is the first text of the
`.team-name` descendant. -/
structure TeamElem where
  teamName : Option String
  winScoreText : Option (Option String)
  scoreText : Option (Option String)
deriving DecidableEq

/-- The `.vm-stats-game-header` fragment: `mapText` is the text reached by
the fixed two-level descent below the `.map` element (`none` when any step
of the `unwrap` chain fails), plus the `.team` fragments in document
order. -/
structure Header where
  mapText : Option String
  teams : List TeamElem
deriving DecidableEq

/-- A roster table (`table.mod-overview`) with its rows. -/
structure RosterTable where
  rows : List PlayerRow
deriving DecidableEq

/-- One `.vm-stats-game` fragment. -/
structure GameTab where
  dataGameId : Option String
  header : Option Header
  tables : List RosterTable
deriving DecidableEq

/-- A fetched series page, reduced to the fragments `parse_matches`
selects. -/
structure SeriesPage where
  tabs : List GameTab
deriving DecidableEq

/-- Abort causes of the extractor: a panicking `unwrap`/`expect` on a
missing structural element, or a `?`-propagated `u32` parse error. -/
inductive PErr where
  | missing (what : String)
  | badScore (text : String)
deriving DecidableEq

/-- `parse_team_name` (src/main.rs lines 326-337): first text of the
`.team-name` element, trimmed; a missing element or text panics. -/
def parse_team_name (team_elem : TeamElem) : Except PErr String :=
  match team_elem.teamName with
  | none => .error (.missing "team-name")
  | some t => .ok (trimStr t)

/-- The mutable locals of the header teams loop (src/main.rs lines
222-227). -/
structure TeamsAcc where
  first_team : String
  second_team : String
  team_won : String
  won_score : Nat
  team_lost : String
  lost_score : Nat
deriving DecidableEq

/-- Initial values of the teams-loop locals (empty strings, zero scores). -/
def initTeamsAcc : TeamsAcc := ⟨"", "", "", 0, "", 0⟩

/-- One iteration of the header teams loop (src/main.rs lines 228-249),
at enumeration index `i`. -/
def teamStep (i : Nat) (acc : TeamsAcc) (team : TeamElem) : Except PErr TeamsAcc := do
  let name ← parse_team_name team
  let acc := if i = 0 then { acc with first_team := name }
             else { acc with second_team := name }
  match team.winScoreText with
  | some txtw =>
    match txtw with
    | none => .error (.missing "winning score text")
    | some txt =>
      match parseU32 (trimStr txt) with
      | none => .error (.badScore txt)
      | some v => .ok { acc with team_won := name, won_score := v }
  | none =>
    match team.scoreText with
    | none => .error (.missing "score element")
    | some none => .error (.missing "score text")
    | some (some txt) =>
      match parseU32 (trimStr txt) with
      | none => .error (.badScore txt)
      | some v => .ok { acc with team_lost := name, lost_score := v }

/-- The enumerated header teams loop. -/
def teamsLoop : Nat → TeamsAcc → List TeamElem → Except PErr TeamsAcc
  | _, acc, [] => .ok acc
  | i, acc, t :: rest => do
    let acc' ← teamStep i acc t
    teamsLoop (i + 1) acc' rest

/-- `team_players.entry(team).and_modify(|ps| ps.push(name)).or_insert(vec![name])`
(src/main.rs lines 276-279) on the association-list embedding. -/
def pushEntry (tp : List (String × List String)) (team : String) (name : String) :
    List (String × List String) :=
  match tp with
  | [] => [(team, [name])]
  | (t, ps) :: rest =>
    if t = team then (t, ps ++ [name]) :: rest else (t, ps) :: pushEntry rest team name

/-- `agents.insert(name, agent)` (src/main.rs line 288): replace the value
of an existing key, else append the new pair. -/
def insertAgent (ag : List (String × String)) (name agent : String) :
    List (String × String) :=
  match ag with
  | [] => [(name, agent)]
  | (n, a) :: rest =>
    if n = name then (n, agent) :: rest else (n, a) :: insertAgent rest name agent

/-- One iteration of the roster-row loop (src/main.rs lines 266-289): read
the player name (panic if absent), record it under `team`, read the agent
title (panic if absent), record the `name -> agent` association. -/
def rowStep (team : String)
    (st : List (String × List String) × List (String × String)) (row : PlayerRow) :
    Except PErr (List (String × List String) × List (String × String)) :=
  match row.nameText with
  | none => .error (.missing "player name")
  | some nt =>
    let name := trimStr nt
    let tp := pushEntry st.1 team name
    match row.agentTitle with
    | none => .error (.missing "agent title")
    | some agent => .ok (tp, insertAgent st.2 name agent)

/-- The roster-row loop over one table. -/
def rowsLoop (team : String) :
    List (String × List String) × List (String × String) → List PlayerRow →
      Except PErr (List (String × List String) × List (String × String))
  | st, [] => .ok st
  | st, row :: rest => do
    let st' ← rowStep team st row
    rowsLoop team st' rest

/-- The enumerated roster-tables loop (src/main.rs lines 259-290): the
first table is attributed to `first_team`, every later one to
`second_team`. -/
def tablesLoop (first_team second_team : String) :
    Nat → List (String × List String) × List (String × String) → List RosterTable →
      Except PErr (List (String × List String) × List (String × String))
  | _, st, [] => .ok st
  | i, st, tbl :: rest => do
    let team := if i = 0 then first_team else second_team
    let st' ← rowsLoop team st tbl.rows
    tablesLoop first_team second_team (i + 1) st' rest

/-- The winner/loser roster partition (src/main.rs lines 295-303): iterate
`team_players`, overwrite `won_players` on a key equal to `team_won`, else
`lost_players` on a key equal to `team_lost`. -/
def splitPlayers (tp : List (String × List String)) (team_won team_lost : String) :
    List String × List String :=
  tp.foldl
    (fun wl e =>
      if e.1 = team_won then (e.2, wl.2)
      else if e.1 = team_lost then (wl.1, e.2) else wl)
    ([], [])

/-- Extraction of one game tab (src/main.rs lines 199-322). -/
def parseTab (tab : GameTab) : Except PErr Match := do
  match tab.header with
  | none => .error (.missing "game tab header")
  | some header =>
    match header.mapText with
    | none => .error (.missing "map name")
    | some mt =>
      let map := trimStr mt
      let acc ← teamsLoop 0 initTeamsAcc header.teams
      let st ← tablesLoop acc.first_team acc.second_team 0 ([], []) tab.tables
      let agents := st.2.map (fun kv => (Player.mk kv.1, Agent.mk kv.2))
      let wl := splitPlayers st.1 acc.team_won acc.team_lost
      .ok { map := ⟨map⟩
            team_won := ⟨acc.team_won, wl.1.map Player.mk⟩
            team_lost := ⟨acc.team_lost, wl.2.map Player.mk⟩
            won_score := acc.won_score
            lost_score := acc.lost_score
            agents := agents }

/-- The game-tab filter (src/main.rs lines 196-198): keep tabs whose
`data-game-id` attribute differs from `"all"` (an absent attribute
passes). -/
def eligibleTabs (page : SeriesPage) : List GameTab :=
  page.tabs.filter (fun t => t.dataGameId ≠ some "all")

/-- The per-tab loop of `parse_matches`, accumulating in document order. -/
def tabsLoop : List GameTab → Except PErr (List Match)
  | [] => .ok []
  | t :: rest => do
    let m ← parseTab t
    let ms ← tabsLoop rest
    .ok (m :: ms)

/-- `parse_matches` (src/main.rs lines 192-324) over the document model. -/
def parse_matches (page : SeriesPage) : Except PErr (List Match) :=
  tabsLoop (eligibleTabs page)

/-- A team element whose score, as actually read by the extractor, fails to
parse as `u32`: the winning-tagged score text for a team carrying the win
marker, the first plain score text otherwise. -/
def badScoreTeam (t : TeamElem) : Bool :=
  match t.winScoreText with
  | some (some txt) => parseU32 (trimStr txt) = none
  | some none => false
  | none =>
    match t.scoreText with
    | some (some txt) => parseU32 (trimStr txt) = none
    | _ => false

/-- A game tab one of whose read score texts does not parse as `u32`. -/
def scoreUnparsable (tab : GameTab) : Bool :=
  match tab.header with
  | some h => h.teams.any badScoreTeam
  | none => false

/-- A concrete page whose second team's score text `"x"` is not numeric. -/
def wBadPage : SeriesPage :=
  ⟨[{ dataGameId := some "1"
      header := some
        { mapText := some "Ascent"
          teams := [⟨some "A", some (some "13"), some (some "13")⟩,
                    ⟨some "B", none, some (some "x")⟩] }
      tables := [] }]⟩

/-- A concrete page that parses successfully. -/
def wGoodPage : SeriesPage :=
  ⟨[{ dataGameId := some "1"
      header := some
        { mapText := some "Ascent"
          teams := [⟨some "A", some (some "13"), some (some "13")⟩,
                    ⟨some "B", none, some (some "5")⟩] }
      tables := [⟨[⟨some "p1", some "Jett"⟩, ⟨some "p2", some "Sova"⟩]⟩,
                 ⟨[⟨some "p3", some "Omen"⟩]⟩] }]⟩

/-- The match extracted from `wGoodPage`. -/
def wParsed : Match :=
  { map := ⟨"Ascent"⟩, team_won := ⟨"A", [⟨"p1"⟩, ⟨"p2"⟩]⟩, team_lost := ⟨"B", [⟨"p3"⟩]⟩
    won_score := 13, lost_score := 5
    agents := [(⟨"p1"⟩, ⟨"Jett"⟩), (⟨"p2"⟩, ⟨"Sova"⟩), (⟨"p3"⟩, ⟨"Omen"⟩)] }

/-! ## Crawler trace model

`scrape_url` and `parse_event` (src/main.rs lines 131-191) are embedded as
pure functions from an abstract web (URL to optionally-fetched page) to the
ordered list of observable events (fetches and fixed delays) plus the
crawl result. A failing fetch or a parse error aborts the crawl exactly
where the `?` operator would. -/

/-- `str::contains`: substring containment. -/
def containsSub (s pat : String) : Bool := decide (pat.toList <:+: s.toList)

/-- A sub-navigation item (`.wf-subnav-item`): its `href` attribute and
whether it carries the `mod-active` class. -/
structure SubnavItem where
  href : String
  active : Bool
deriving DecidableEq

/-- A fetched page, reduced to what the crawler reads: sub-navigation
items, bracket-item link targets (`a.bracket-item` hrefs, in document
order), and game tabs (input to `parse_matches`). -/
structure Page where
  subnav : List SubnavItem
  brackets : List String
  tabs : List GameTab
deriving DecidableEq

/-- The web behind `reqwest::get`: `none` models a failing fetch. -/
def Web := String → Option Page

/-- Observable crawler events, one constructor per `reqwest::get` call
site of src/main.rs (line 133: event root; line 160: sub-navigation page,
URL `"https://vlr.gg" ++ href`; line 183: series page, URL
`"https://www.vlr.gg" ++ href`), plus the fixed one-second
`tokio::time::sleep` (lines 139, 159, 188). Fetch events record the link
target passed to the call site. -/
inductive Ev where
  | fetchRoot (url : String)
  | fetchSubnav (href : String)
  | fetchSeries (href : String)
  | sleep
deriving DecidableEq

/-- Crawl abort causes: a failed fetch or a propagated parse error. -/
inductive CErr where
  | fetchFail (url : String)
  | parseFail (e : PErr)
deriving DecidableEq

/-- The bracket-item loop of `parse_event` (src/main.rs lines 179-189):
fetch the series page, extract its matches, then sleep; a failed fetch or
a parse error aborts before the sleep. -/
def parse_event_aux (web : Web) : List String → List Ev × Except CErr (List Match)
  | [] => ([], .ok [])
  | b :: rest =>
    match web ("https://www.vlr.gg" ++ b) with
    | none => ([.fetchSeries b], .error (.fetchFail ("https://www.vlr.gg" ++ b)))
    | some spage =>
      match parse_matches ⟨spage.tabs⟩ with
      | .error e => ([.fetchSeries b], .error (.parseFail e))
      | .ok ms =>
        (Ev.fetchSeries b :: Ev.sleep :: (parse_event_aux web rest).1,
          (parse_event_aux web rest).2.map (fun more => ms ++ more))

/-- `parse_event` (src/main.rs lines 175-191): run the bracket-item loop
on the page's bracket links. -/
def parse_event (web : Web) (doc : Page) : List Ev × Except CErr (List Match) :=
  parse_event_aux web doc.brackets

/-- The eligible sub-navigation links (src/main.rs lines 144-155):
non-active items' hrefs, excluding any containing `"showmatch"`. -/
def event_pages (doc : Page) : List String :=
  (doc.subnav.filter (fun x => !x.active)).filterMap
    (fun x => if containsSub x.href "showmatch" then none else some x.href)

/-- The sub-navigation loop of `scrape_url` (src/main.rs lines 158-168):
sleep, fetch the page, then run `parse_event` on it. -/
def goPages (web : Web) : List String → List Ev × Except CErr (List Match)
  | [] => ([], .ok [])
  | e :: rest =>
    match web ("https://vlr.gg" ++ e) with
    | none => ([.sleep, .fetchSubnav e], .error (.fetchFail ("https://vlr.gg" ++ e)))
    | some page =>
      match (parse_event web page).2 with
      | .error err => (Ev.sleep :: Ev.fetchSubnav e :: (parse_event web page).1, .error err)
      | .ok ms =>
        (Ev.sleep :: Ev.fetchSubnav e ::
            ((parse_event web page).1 ++ (goPages web rest).1),
          (goPages web rest).2.map (fun more => ms ++ more))

/-- `scrape_url` (src/main.rs lines 131-173): fetch the root, sleep, run
`parse_event` on the root page, then process each eligible sub-navigation
page. (Writing the JSON output file is outside the model.) -/
def scrape_url (web : Web) (event_url : String) : List Ev × Except CErr (List Match) :=
  match web event_url with
  | none => ([.fetchRoot event_url], .error (.fetchFail event_url))
  | some doc =>
    match (parse_event web doc).2 with
    | .error e => (Ev.fetchRoot event_url :: Ev.sleep :: (parse_event web doc).1, .error e)
    | .ok ms =>
      (Ev.fetchRoot event_url :: Ev.sleep ::
          ((parse_event web doc).1 ++ (goPages web (event_pages doc)).1),
        (goPages web (event_pages doc)).2.map (fun more => ms ++ more))

/-- An event is a network fetch (any of the three call sites). -/
def isFetch : Ev → Bool
  | .sleep => false
  | _ => true

/-- The fixed delay separates consecutive fetches: no two adjacent events
of the trace are both fetches. -/
def delayRespecting (t : List Ev) : Prop :=
  List.Chain' (fun a b => ¬(isFetch a = true ∧ isFetch b = true)) t

/-- Adjacent-event discipline actually guaranteed by the crawler: two
adjacent fetches can only be a sub-navigation page fetch immediately
followed by a series fetch. -/
def adjacentFetchOk (a b : Ev) : Prop :=
  isFetch a = true → isFetch b = true →
    (∃ e, a = Ev.fetchSubnav e) ∧ (∃ s, b = Ev.fetchSeries s)

/-- A three-page web: a root with one sub-navigation link, whose page has
one bracket item leading to an empty series page. -/
def wWeb : Web := fun u =>
  if u = "r" then
    some { subnav := [⟨"/ev", false⟩], brackets := [], tabs := [] }
  else if u = "https://vlr.gg/ev" then
    some { subnav := [], brackets := ["/s1"], tabs := [] }
  else if u = "https://www.vlr.gg/s1" then
    some { subnav := [], brackets := [], tabs := [] }
  else none

/-- A web whose root page carries a `"showmatch"` sub-navigation link next
to an ordinary one. -/
def wWeb2 : Web := fun u =>
  if u = "r" then
    some { subnav := [⟨"/showmatch-final", false⟩, ⟨"/ev", false⟩]
           brackets := [], tabs := [] }
  else if u = "https://vlr.gg/ev" then
    some { subnav := [], brackets := [], tabs := [] }
  else none

/-! ## Persisted JSON model

The crawler persists `Vec<Match>` with `serde_json::to_string` and the
analyzer reads it back with `serde_json::from_str::<Vec<Match>>`
(src/main.rs lines 74, 169). The derived `Serialize`/`Deserialize` of
src/lib.rs are embedded at the JSON-value level: `Map`, `Agent` and
`Player` are `#[serde(transparent)]` wrappers and (de)serialize as bare
strings; `Team` and `Match` are objects keyed by field name;
`HashMap<Player, Agent>` serializes as an object and is rebuilt by
inserting its entries in order. -/

/-- JSON values (numbers restricted to the naturals the model needs). -/
inductive Json where
  | str (s : String)
  | num (n : Nat)
  | arr (items : List Json)
  | obj (fields : List (String × Json))

/-- `#[serde(transparent)]` serialization of `Map`: the bare name string. -/
def Map.toJson (m : Map) : Json := .str m.name

/-- `#[serde(transparent)]` serialization of `Agent`. -/
def Agent.toJson (a : Agent) : Json := .str a.name

/-- `#[serde(transparent)]` serialization of `Player`. -/
def Player.toJson (p : Player) : Json := .str p.name

/-- Derived serialization of `Team`: object with `name` and `players`. -/
def Team.toJson (t : Team) : Json :=
  .obj [("name", .str t.name), ("players", .arr (t.players.map Player.toJson))]

/-- Serialization of the `agents` map: a JSON object, one entry per pair. -/
def agentsToJson (ag : List (Player × Agent)) : Json :=
  .obj (ag.map (fun kv => (kv.1.name, Agent.toJson kv.2)))

/-- Derived serialization of `Match`: object keyed by field name. -/
def Match.toJson (m : Match) : Json :=
  .obj [("map", Map.toJson m.map), ("team_won", Team.toJson m.team_won),
        ("team_lost", Team.toJson m.team_lost), ("won_score", .num m.won_score),
        ("lost_score", .num m.lost_score), ("agents", agentsToJson m.agents)]

/-- `serde_json::to_string(&matches)`: the persisted JSON array. -/
def matchesToJson (ms : List Match) : Json := .arr (ms.map Match.toJson)

/-- Struct-field lookup during deserialization (first occurrence wins). -/
def getField (fields : List (String × Json)) (name : String) : Except String Json :=
  match fields with
  | [] => .error ("missing field " ++ name)
  | (n, v) :: rest => if n = name then .ok v else getField rest name

/-- Deserialize a JSON string. -/
def Json.asString : Json → Except String String
  | .str s => .ok s
  | _ => .error "expected string"

/-- Deserialize a `u32`: a number below `2 ^ 32`. -/
def Json.asNum : Json → Except String Nat
  | .num n => if n < 2 ^ 32 then .ok n else .error "u32 overflow"
  | _ => .error "expected number"

/-- Transparent deserialization of `Map`. -/
def Map.fromJson (j : Json) : Except String Map := do
  let s ← j.asString
  .ok ⟨s⟩

/-- Transparent deserialization of `Agent`. -/
def Agent.fromJson (j : Json) : Except String Agent := do
  let s ← j.asString
  .ok ⟨s⟩

/-- Transparent deserialization of `Player`. -/
def Player.fromJson (j : Json) : Except String Player := do
  let s ← j.asString
  .ok ⟨s⟩

/-- Deserialize a roster element by element. -/
def playersFromJson : List Json → Except String (List Player)
  | [] => .ok []
  | j :: rest => do
    let p ← Player.fromJson j
    let ps ← playersFromJson rest
    .ok (p :: ps)

/-- Derived deserialization of `Team`. -/
def Team.fromJson (j : Json) : Except String Team :=
  match j with
  | .obj fields => do
    let nameJ ← getField fields "name"
    let name ← nameJ.asString
    let playersJ ← getField fields "players"
    match playersJ with
    | .arr items => do
      let ps ← playersFromJson items
      .ok ⟨name, ps⟩
    | _ => .error "expected array"
  | _ => .error "expected object"

/-- `HashMap` insertion for the rebuilt `agents` map: replace the value of
an existing key, else append. -/
def insertPA (ag : List (Player × Agent)) (p : Player) (a : Agent) :
    List (Player × Agent) :=
  match ag with
  | [] => [(p, a)]
  | (p₀, a₀) :: rest =>
    if p₀ = p then (p₀, a) :: rest else (p₀, a₀) :: insertPA rest p a

/-- `HashMap<Player, Agent>` deserialization: insert the object's entries
in order. -/
def agentsFromJson : List (String × Json) → List (Player × Agent) →
    Except String (List (Player × Agent))
  | [], acc => .ok acc
  | (k, v) :: rest, acc => do
    let a ← Agent.fromJson v
    agentsFromJson rest (insertPA acc ⟨k⟩ a)

/-- Derived deserialization of `Match`. -/
def Match.fromJson (j : Json) : Except String Match :=
  match j with
  | .obj fields => do
    let mapJ ← getField fields "map"
    let mp ← Map.fromJson mapJ
    let wonJ ← getField fields "team_won"
    let team_won ← Team.fromJson wonJ
    let lostJ ← getField fields "team_lost"
    let team_lost ← Team.fromJson lostJ
    let wsJ ← getField fields "won_score"
    let won_score ← wsJ.asNum
    let lsJ ← getField fields "lost_score"
    let lost_score ← lsJ.asNum
    let agJ ← getField fields "agents"
    match agJ with
    | .obj ag => do
      let agents ← agentsFromJson ag []
      .ok { map := mp, team_won := team_won, team_lost := team_lost
            won_score := won_score, lost_score := lost_score, agents := agents }
    | _ => .error "expected object"
  | _ => .error "expected object"

/-- Deserialize the persisted array element by element. -/
def matchListFromJson : List Json → Except String (List Match)
  | [] => .ok []
  | j :: rest => do
    let m ← Match.fromJson j
    let ms ← matchListFromJson rest
    .ok (m :: ms)

/-- `serde_json::from_str::<Vec<Match>>` at the JSON-value level. -/
def matchesFromJson : Json → Except String (List Match)
  | .arr items => matchListFromJson items
  | _ => .error "expected array"

end Vlrx

namespace Vlrx

/-! ## Analyzer lemmas -/

theorem sortAgents_eq_of_perm {l₁ l₂ : List Agent} (h : l₁.Perm l₂) :
    sortAgents l₁ = sortAgents l₂ :=
  List.eq_of_perm_of_sorted
    ((List.perm_insertionSort _ l₁).trans (h.trans (List.perm_insertionSort _ l₂).symm))
    (List.sorted_insertionSort _ l₁) (List.sorted_insertionSort _ l₂)

theorem comp1_congr {m₁ m₂ : Match} (hw : m₁.team_won = m₂.team_won)
    (ha : m₁.agents.Perm m₂.agents) : comp1 m₁ = comp1 m₂ := by
  unfold comp1
  rw [hw]
  exact sortAgents_eq_of_perm ((ha.filter _).map _)

theorem comp2_congr {m₁ m₂ : Match} (hl : m₁.team_lost = m₂.team_lost)
    (ha : m₁.agents.Perm m₂.agents) : comp2 m₁ = comp2 m₂ := by
  unfold comp2
  rw [hl]
  exact sortAgents_eq_of_perm ((ha.filter _).map _)

theorem mem_bump {tbl : List ((Map × List Agent) × Nat)} {k : Map × List Agent}
    {e : (Map × List Agent) × Nat} (h : e ∈ bump tbl k) : e.1 = k ∨ e ∈ tbl := by
  induction tbl with
  | nil => simp [bump] at h; simp [h]
  | cons hd tl ih =>
    obtain ⟨k', c⟩ := hd
    simp only [bump] at h
    split at h
    · rcases List.mem_cons.mp h with h' | h'
      · left; rw [h']; simpa using ‹k' = k›
      · right; exact List.mem_cons_of_mem _ h'
    · rcases List.mem_cons.mp h with h' | h'
      · right; exact h' ▸ List.mem_cons_self _ _
      · rcases ih h' with h'' | h''
        · exact Or.inl h''
        · exact Or.inr (List.mem_cons_of_mem _ h'')

theorem pos_of_mem_bump {tbl : List ((Map × List Agent) × Nat)} {k : Map × List Agent}
    (hpos : ∀ e ∈ tbl, 0 < e.2) :
    ∀ e ∈ bump tbl k, 0 < e.2 := by
  induction tbl with
  | nil => intro e he; simp [bump] at he; simp [he]
  | cons hd tl ih =>
    obtain ⟨k', c⟩ := hd
    intro e he
    simp only [bump] at he
    split at he
    · rcases List.mem_cons.mp he with h' | h'
      · subst h'; simp
      · exact hpos _ (List.mem_cons_of_mem _ h')
    · rcases List.mem_cons.mp he with h' | h'
      · exact h' ▸ hpos _ (List.mem_cons_self _ _)
      · exact ih (fun e' he' => hpos _ (List.mem_cons_of_mem _ he')) _ h'

theorem countOn_bump (tbl : List ((Map × List Agent) × Nat)) (k : Map × List Agent)
    (map : String) :
    countOn (bump tbl k) map = countOn tbl map + (if k.1.name = map then 1 else 0) := by
  induction tbl with
  | nil => by_cases h : k.1.name = map <;> simp [bump, countOn, h]
  | cons hd tl ih =>
    obtain ⟨k', c⟩ := hd
    by_cases hk : k' = k
    · subst hk
      by_cases h : k'.1.name = map <;> simp [bump, countOn, h] <;> omega
    · have ih' := ih
      simp only [countOn] at ih' ⊢
      by_cases h : k'.1.name = map <;>
        simp [bump, if_neg hk, List.filter_cons, h, ih'] <;> omega

end Vlrx

namespace Vlrx

theorem mem_bumpMatch {tbl : List ((Map × List Agent) × Nat)} {m : Match}
    {e : (Map × List Agent) × Nat} (h : e ∈ bumpMatch tbl m) :
    e.1 = (m.map, comp1 m) ∨ e.1 = (m.map, comp2 m) ∨ e ∈ tbl := by
  rcases mem_bump h with h' | h'
  · exact Or.inr (Or.inl h')
  · rcases mem_bump h' with h'' | h''
    · exact Or.inl h''
    · exact Or.inr (Or.inr h'')

theorem countOn_bumpMatch (tbl : List ((Map × List Agent) × Nat)) (m : Match)
    (map : String) :
    countOn (bumpMatch tbl m) map =
      countOn tbl map + (if m.map.name = map then 2 else 0) := by
  unfold bumpMatch
  rw [countOn_bump, countOn_bump]
  by_cases h : m.map.name = map <;> simp [h] <;> omega

theorem countOn_foldl (ms : List Match) (tbl : List ((Map × List Agent) × Nat))
    (map : String) :
    countOn (ms.foldl bumpMatch tbl) map =
      countOn tbl map + 2 * (ms.filter (fun x => x.map.name = map)).length := by
  induction ms generalizing tbl with
  | nil => simp
  | cons m rest ih =>
    rw [List.foldl_cons, ih, countOn_bumpMatch]
    by_cases h : m.map.name = map <;> simp [List.filter_cons, h] <;> omega

theorem countOn_buildTable (ms : List Match) (map : String) :
    countOn (buildTable ms) map = spec_map_matches_cnt ms map := by
  rw [buildTable, countOn_foldl, spec_map_matches_cnt]
  simp [countOn]
  omega

theorem mem_foldl_bumpMatch {ms : List Match} {tbl : List ((Map × List Agent) × Nat)}
    {e : (Map × List Agent) × Nat} (h : e ∈ ms.foldl bumpMatch tbl) :
    e ∈ tbl ∨ ∃ m ∈ ms, e.1 = (m.map, comp1 m) ∨ e.1 = (m.map, comp2 m) := by
  induction ms generalizing tbl with
  | nil => exact Or.inl h
  | cons m rest ih =>
    rw [List.foldl_cons] at h
    rcases ih h with h' | h'
    · rcases mem_bumpMatch h' with h'' | h'' | h''
      · exact Or.inr ⟨m, List.mem_cons_self _ _, Or.inl h''⟩
      · exact Or.inr ⟨m, List.mem_cons_self _ _, Or.inr h''⟩
      · exact Or.inl h''
    · obtain ⟨m', hm', hk⟩ := h'
      exact Or.inr ⟨m', List.mem_cons_of_mem _ hm', hk⟩

theorem mem_buildTable {ms : List Match} {e : (Map × List Agent) × Nat}
    (h : e ∈ buildTable ms) :
    ∃ m ∈ ms, e.1 = (m.map, comp1 m) ∨ e.1 = (m.map, comp2 m) := by
  rcases mem_foldl_bumpMatch h with h' | h'
  · simp at h'
  · exact h'

theorem pos_of_mem_foldl {ms : List Match} {tbl : List ((Map × List Agent) × Nat)}
    (hpos : ∀ e ∈ tbl, 0 < e.2) :
    ∀ e ∈ ms.foldl bumpMatch tbl, 0 < e.2 := by
  induction ms generalizing tbl with
  | nil => exact hpos
  | cons m rest ih =>
    rw [List.foldl_cons]
    exact ih (pos_of_mem_bump (pos_of_mem_bump hpos))

theorem pos_of_mem_buildTable {ms : List Match} :
    ∀ e ∈ buildTable ms, 0 < e.2 :=
  pos_of_mem_foldl (by simp)

theorem count_le_countOn {tbl : List ((Map × List Agent) × Nat)} {map : String}
    {e : (Map × List Agent) × Nat} (he : e ∈ tbl) (hname : e.1.1.name = map) :
    e.2 ≤ countOn tbl map := by
  have hmem : e ∈ tbl.filter (fun e => e.1.1.name = map) :=
    List.mem_filter.mpr ⟨he, by simp [hname]⟩
  have : e.2 ∈ (tbl.filter (fun e => e.1.1.name = map)).map (fun e => e.2) :=
    List.mem_map.mpr ⟨e, hmem, rfl⟩
  exact List.single_le_sum (fun x _ => Nat.zero_le x) _ this

theorem sum_map_div (l : List Nat) (d : ℚ) :
    (l.map (fun (c : Nat) => (c : ℚ) / d)).sum = ((l.sum : ℚ)) / d := by
  induction l with
  | nil => simp
  | cons c rest ih => simp [ih, add_div]

end Vlrx

namespace Vlrx

theorem analyze_meta_eq (ms : List Match) (target : String) :
    analyze_meta ms target =
      (((buildTable ms).filter (fun e => e.1.1.name = target)).map
        (fun e => (e.1.2, (e.2 : ℚ) / (spec_map_matches_cnt ms target : ℚ)))).insertionSort
        (fun a b => a.2 ≤ b.2) := rfl

theorem cnt_pos_of_mem {ms : List Match} {target : String} {m : Match}
    (hm : m ∈ ms) (hname : m.map.name = target) :
    0 < spec_map_matches_cnt ms target := by
  have hmem : m ∈ ms.filter (fun x => x.map.name = target) :=
    List.mem_filter.mpr ⟨hm, by simp [hname]⟩
  have hpos : 0 < (ms.filter (fun x => x.map.name = target)).length :=
    List.length_pos.mpr (List.ne_nil_of_mem hmem)
  unfold spec_map_matches_cnt
  omega

end Vlrx

namespace Vlrx

/-- C6: every entry of `analyze_meta ms target` derives from a match of `ms`
whose map name equals the requested name (its composition is that match's
winning-side or losing-side sorted composition). -/
theorem analyze_meta_map_filtering (ms : List Match) (target : String) :
    ∀ e ∈ analyze_meta ms target,
      ∃ m ∈ ms, m.map.name = target ∧ (e.1 = comp1 m ∨ e.1 = comp2 m) := by
  intro e he
  rw [analyze_meta_eq] at he
  have he' := (List.perm_insertionSort _ _).mem_iff.mp he
  obtain ⟨e', he'', hfe⟩ := List.mem_map.mp he'
  obtain ⟨het, hp⟩ := List.mem_filter.mp he''
  obtain ⟨m, hm, hk⟩ := mem_buildTable het
  have hname : e'.1.1.name = target := by simpa using hp
  refine ⟨m, hm, ?_, ?_⟩
  · rcases hk with hk | hk <;> rw [hk] at hname <;> exact hname
  · have he1 : e.1 = e'.1.2 := by rw [← hfe]
    rcases hk with hk | hk
    · left; rw [he1, hk]
    · right; rw [he1, hk]

/-- C7: if the requested map name occurs in no match, `analyze_meta` returns
the empty list (silent degradation, no error). -/
theorem analyze_meta_missing_map (ms : List Match) (target : String)
    (h : ∀ m ∈ ms, m.map.name ≠ target) :
    analyze_meta ms target = [] := by
  have hfil : (buildTable ms).filter (fun e => e.1.1.name = target) = [] := by
    rw [List.filter_eq_nil_iff]
    intro e he
    obtain ⟨m, hm, hk⟩ := mem_buildTable he
    have := h m hm
    rcases hk with hk | hk <;> simp [hk, this]
  rw [analyze_meta_eq, hfil]
  rfl

/-- C10: any frequency-table entry that survives the map-name filter in
`analyze_meta` witnesses a positive divisor `2 × (matches on that map)`, so
the `f64` rate of every returned entry is a finite quotient (never `NaN`)
and the final `partial_cmp`-based sort cannot panic. -/
theorem analyze_meta_divisor_pos (ms : List Match) (target : String) :
    ∀ e ∈ (buildTable ms).filter (fun e => e.1.1.name = target),
      0 < spec_map_matches_cnt ms target := by
  intro e he
  obtain ⟨het, hp⟩ := List.mem_filter.mp he
  obtain ⟨m, hm, hk⟩ := mem_buildTable het
  have hname : e.1.1.name = target := by simpa using hp
  have hmn : m.map.name = target := by
    rcases hk with hk | hk <;> rw [hk] at hname <;> exact hname
  exact cnt_pos_of_mem hm hmn

theorem sum_rates (tbl : List ((Map × List Agent) × Nat)) (d : ℚ) :
    (tbl.map (fun e => ((e.2 : ℚ) / d))).sum =
      ((((tbl.map (fun e => e.2)).sum : ℕ)) : ℚ) / d := by
  induction tbl with
  | nil => simp
  | cons e rest ih => simp [ih, add_div]

/-- C2: when the requested map occurs in at least one match, the rates
returned by `analyze_meta` sum to exactly `1`; moreover each rate is a
positive occurrence count divided by `2 × (matches on that map)` and lies in
`[0, 1]`. -/
theorem analyze_meta_rate_conservation (ms : List Match) (target : String)
    (h : ∃ m ∈ ms, m.map.name = target) :
    ((analyze_meta ms target).map (fun e => e.2)).sum = 1 ∧
      ∀ e ∈ analyze_meta ms target,
        (∃ c : Nat, 0 < c ∧ e.2 = (c : ℚ) / (spec_map_matches_cnt ms target : ℚ)) ∧
          0 ≤ e.2 ∧ e.2 ≤ 1 := by
  obtain ⟨m₀, hm₀, hname₀⟩ := h
  have hcnt : 0 < spec_map_matches_cnt ms target := cnt_pos_of_mem hm₀ hname₀
  have hcntQ : (0 : ℚ) < (spec_map_matches_cnt ms target : ℚ) := by exact_mod_cast hcnt
  constructor
  · rw [analyze_meta_eq]
    have hperm := List.perm_insertionSort (fun a b : List Agent × ℚ => a.2 ≤ b.2)
      (((buildTable ms).filter (fun e => e.1.1.name = target)).map
        (fun e => (e.1.2, (e.2 : ℚ) / (spec_map_matches_cnt ms target : ℚ))))
    rw [(hperm.map (fun e : List Agent × ℚ => e.2)).sum_eq, List.map_map]
    have hcomp : ((fun e : List Agent × ℚ => e.2) ∘
        (fun e : (Map × List Agent) × Nat =>
          (e.1.2, (e.2 : ℚ) / (spec_map_matches_cnt ms target : ℚ)))) =
        fun e : (Map × List Agent) × Nat =>
          (e.2 : ℚ) / (spec_map_matches_cnt ms target : ℚ) := rfl
    rw [hcomp, sum_rates]
    have hc := countOn_buildTable ms target
    unfold countOn at hc
    rw [hc]
    exact div_self (ne_of_gt hcntQ)
  · intro e he
    rw [analyze_meta_eq] at he
    have he' := (List.perm_insertionSort _ _).mem_iff.mp he
    obtain ⟨e', he'', hfe⟩ := List.mem_map.mp he'
    obtain ⟨het, hp⟩ := List.mem_filter.mp he''
    have hname : e'.1.1.name = target := by simpa using hp
    have hpos : 0 < e'.2 := pos_of_mem_buildTable _ het
    have hle : e'.2 ≤ countOn (buildTable ms) target := count_le_countOn het hname
    have hle' : e'.2 ≤ spec_map_matches_cnt ms target := by
      rwa [countOn_buildTable] at hle
    have he2 : e.2 = (e'.2 : ℚ) / (spec_map_matches_cnt ms target : ℚ) := by rw [← hfe]
    refine ⟨⟨e'.2, hpos, he2⟩, ?_, ?_⟩
    · rw [he2]
      exact div_nonneg (Nat.cast_nonneg _) (le_of_lt hcntQ)
    · rw [he2, div_le_one hcntQ]
      exact_mod_cast hle'

/-- C3: `analyze_meta` is invariant under reordering the agent associations
of one match (same map, teams, scores; the `agents` association list
permuted): compositions are canonicalized by sorting, so both inputs yield
identical output. -/
theorem analyze_meta_composition_canonical
    (pre post : List Match) (m₁ m₂ : Match) (target : String)
    (hmap : m₂.map = m₁.map) (hw : m₂.team_won = m₁.team_won)
    (hl : m₂.team_lost = m₁.team_lost) (hws : m₂.won_score = m₁.won_score)
    (hls : m₂.lost_score = m₁.lost_score) (ha : m₂.agents.Perm m₁.agents) :
    analyze_meta (pre ++ m₂ :: post) target = analyze_meta (pre ++ m₁ :: post) target := by
  have hc1 : comp1 m₂ = comp1 m₁ := comp1_congr hw ha
  have hc2 : comp2 m₂ = comp2 m₁ := comp2_congr hl ha
  have hstep : ∀ tbl, bumpMatch tbl m₂ = bumpMatch tbl m₁ := by
    intro tbl
    unfold bumpMatch
    rw [hmap, hc1, hc2]
  have htbl : buildTable (pre ++ m₂ :: post) = buildTable (pre ++ m₁ :: post) := by
    unfold buildTable
    rw [List.foldl_append, List.foldl_append, List.foldl_cons, List.foldl_cons, hstep]
  have hcnt : spec_map_matches_cnt (pre ++ m₂ :: post) target =
      spec_map_matches_cnt (pre ++ m₁ :: post) target := by
    unfold spec_map_matches_cnt
    simp only [List.filter_append, List.filter_cons, hmap]
    split <;> simp
  rw [analyze_meta_eq, analyze_meta_eq, htbl, hcnt]

end Vlrx

namespace Vlrx

/-- Witness for C2 at a concrete dataset. -/
theorem analyze_meta_rate_conservation_witness :
    (∃ m ∈ [wMatch], m.map.name = "Ascent") ∧
      (((analyze_meta [wMatch] "Ascent").map (fun e => e.2)).sum = 1 ∧
        ∀ e ∈ analyze_meta [wMatch] "Ascent",
          (∃ c : Nat, 0 < c ∧
            e.2 = (c : ℚ) / (spec_map_matches_cnt [wMatch] "Ascent" : ℚ)) ∧
            0 ≤ e.2 ∧ e.2 ≤ 1) :=
  ⟨by decide, analyze_meta_rate_conservation [wMatch] "Ascent" (by decide)⟩

/-- Witness for C6 at a concrete dataset. -/
theorem analyze_meta_map_filtering_witness :
    ((([] : List Agent), ((2 : ℕ) : ℚ) / ((2 : ℕ) : ℚ)) ∈ analyze_meta [wMatch] "Ascent") ∧
      ∃ m ∈ [wMatch], m.map.name = "Ascent" ∧
        (((([] : List Agent), ((2 : ℕ) : ℚ) / ((2 : ℕ) : ℚ)).1 = comp1 m) ∨
          ((([] : List Agent), ((2 : ℕ) : ℚ) / ((2 : ℕ) : ℚ)).1 = comp2 m)) := by
  have hmem : (([] : List Agent), ((2 : ℕ) : ℚ) / ((2 : ℕ) : ℚ)) ∈
      analyze_meta [wMatch] "Ascent" := List.Mem.head _
  exact ⟨hmem, analyze_meta_map_filtering [wMatch] "Ascent" _ hmem⟩

/-- Witness for C7 at a concrete dataset. -/
theorem analyze_meta_missing_map_witness :
    (∀ m ∈ [wMatch], m.map.name ≠ "Bind") ∧ analyze_meta [wMatch] "Bind" = [] :=
  ⟨by decide, analyze_meta_missing_map [wMatch] "Bind" (by decide)⟩

/-- Witness for C10 at a concrete dataset. -/
theorem analyze_meta_divisor_pos_witness :
    ((((⟨"Ascent"⟩ : Map), ([] : List Agent)), 2) ∈
        (buildTable [wMatch]).filter (fun e => e.1.1.name = "Ascent")) ∧
      0 < spec_map_matches_cnt [wMatch] "Ascent" := by
  have hmem : (((⟨"Ascent"⟩ : Map), ([] : List Agent)), 2) ∈
      (buildTable [wMatch]).filter (fun e => e.1.1.name = "Ascent") := by decide
  exact ⟨hmem, analyze_meta_divisor_pos [wMatch] "Ascent" _ hmem⟩

/-- Witness for C3 at a concrete pair of datasets. -/
theorem analyze_meta_composition_canonical_witness :
    (wMatchB.map = wMatchA.map ∧ wMatchB.team_won = wMatchA.team_won ∧
      wMatchB.team_lost = wMatchA.team_lost ∧ wMatchB.won_score = wMatchA.won_score ∧
      wMatchB.lost_score = wMatchA.lost_score ∧ wMatchB.agents.Perm wMatchA.agents) ∧
      analyze_meta ([] ++ wMatchB :: []) "Bind" = analyze_meta ([] ++ wMatchA :: []) "Bind" :=
  ⟨⟨rfl, rfl, rfl, rfl, rfl, by decide⟩,
    analyze_meta_composition_canonical [] [] wMatchA wMatchB "Bind" rfl rfl rfl rfl rfl
      (by decide)⟩

end Vlrx

namespace Vlrx

/-! ## Extractor lemmas -/

theorem except_bind_error {γ α β : Type} (e : γ) (f : α → Except γ β) :
    (Except.error e >>= f : Except γ β) = Except.error e := rfl

theorem except_bind_ok {γ α β : Type} (a : α) (f : α → Except γ β) :
    (Except.ok a >>= f : Except γ β) = f a := rfl

theorem teamStep_error_of_badScore {t : TeamElem} (h : badScoreTeam t = true)
    (i : Nat) (acc : TeamsAcc) : ∃ e, teamStep i acc t = .error e := by
  unfold badScoreTeam at h
  unfold teamStep parse_team_name
  cases hn : t.teamName with
  | none => exact ⟨.missing "team-name", by simp [hn, except_bind_error]⟩
  | some nm =>
    simp only [hn, except_bind_ok]
    cases hw : t.winScoreText with
    | some txtw =>
      cases txtw with
      | none => simp [hw] at h
      | some txt =>
        rw [hw] at h
        simp only [decide_eq_true_eq] at h
        exact ⟨.badScore txt, by simp [hw, h]⟩
    | none =>
      rw [hw] at h
      cases hs : t.scoreText with
      | none => rw [hs] at h; simp at h
      | some txts =>
        cases txts with
        | none => rw [hs] at h; simp at h
        | some txt =>
          rw [hs] at h
          simp only [decide_eq_true_eq] at h
          exact ⟨.badScore txt, by simp [hw, hs, h]⟩

theorem teamsLoop_error_of_badScore {teams : List TeamElem}
    (h : ∃ t ∈ teams, badScoreTeam t = true) :
    ∀ (i : Nat) (acc : TeamsAcc), ∃ e, teamsLoop i acc teams = .error e := by
  induction teams with
  | nil => simp at h
  | cons t rest ih =>
    intro i acc
    rcases h with ⟨t', ht', hbad⟩
    rcases List.mem_cons.mp ht' with h' | h'
    · obtain ⟨e, he⟩ := teamStep_error_of_badScore (h' ▸ hbad) i acc
      exact ⟨e, by simp [teamsLoop, he, except_bind_error]⟩
    · cases hstep : teamStep i acc t with
      | error e => exact ⟨e, by simp [teamsLoop, hstep, except_bind_error]⟩
      | ok acc' =>
        obtain ⟨e, he⟩ := ih ⟨t', h', hbad⟩ (i + 1) acc'
        exact ⟨e, by simp [teamsLoop, hstep, except_bind_ok, he]⟩

theorem parseTab_error_of_scoreUnparsable {tab : GameTab}
    (h : scoreUnparsable tab = true) : ∃ e, parseTab tab = .error e := by
  unfold scoreUnparsable at h
  unfold parseTab
  cases hh : tab.header with
  | none => rw [hh] at h; simp at h
  | some header =>
    rw [hh] at h
    have hbad : ∃ t ∈ header.teams, badScoreTeam t = true := by
      simpa using List.any_eq_true.mp h
    cases hm : header.mapText with
    | none => exact ⟨.missing "map name", by simp [hh, hm]⟩
    | some mt =>
      obtain ⟨e, he⟩ := teamsLoop_error_of_badScore hbad 0 initTeamsAcc
      exact ⟨e, by simp [hh, hm, he, except_bind_error]⟩

theorem tabsLoop_error_of_mem {tabs : List GameTab}
    (h : ∃ t ∈ tabs, ∃ e', parseTab t = .error e') :
    ∃ e, tabsLoop tabs = .error e := by
  induction tabs with
  | nil => simp at h
  | cons t rest ih =>
    rcases h with ⟨t', ht', e', he'⟩
    cases hp : parseTab t with
    | error e => exact ⟨e, by simp [tabsLoop, hp, except_bind_error]⟩
    | ok m =>
      rcases List.mem_cons.mp ht' with hcase | hcase
      · rw [hcase] at he'
        rw [hp] at he'
        cases he'
      · obtain ⟨e, he⟩ := ih ⟨t', hcase, e', he'⟩
        exact ⟨e, by simp [tabsLoop, hp, except_bind_ok, he, except_bind_error]⟩

/-- C4: if some eligible game tab of a document carries a score text that
does not parse as an unsigned integer, `parse_matches` returns an error for
the whole document: no list of matches (in particular no partial one) is
ever produced. -/
theorem parse_matches_score_error (page : SeriesPage)
    (h : ∃ tab ∈ eligibleTabs page, scoreUnparsable tab = true) :
    (∃ e, parse_matches page = .error e) ∧ ∀ ms, parse_matches page ≠ .ok ms := by
  obtain ⟨tab, htab, hbad⟩ := h
  obtain ⟨e', he'⟩ := parseTab_error_of_scoreUnparsable hbad
  obtain ⟨e, he⟩ := tabsLoop_error_of_mem ⟨tab, htab, e', he'⟩
  refine ⟨⟨e, he⟩, ?_⟩
  intro ms hms
  rw [parse_matches] at hms
  rw [hms] at he
  cases he

end Vlrx

namespace Vlrx

theorem mem_insertAgent_self (ag : List (String × String)) (name agent : String) :
    (name, agent) ∈ insertAgent ag name agent := by
  induction ag with
  | nil => simp [insertAgent]
  | cons hd rest ih =>
    obtain ⟨n, a⟩ := hd
    by_cases h : n = name
    · subst h
      simp [insertAgent]
    · simp only [insertAgent, if_neg h]
      exact List.mem_cons_of_mem _ ih

theorem mem_insertAgent_of_mem {ag : List (String × String)} {n a : String}
    (h : (n, a) ∈ ag) (name agent : String) :
    ∃ a', (n, a') ∈ insertAgent ag name agent := by
  induction ag with
  | nil => simp at h
  | cons hd rest ih =>
    obtain ⟨n₀, a₀⟩ := hd
    by_cases hk : n₀ = name
    · rcases List.mem_cons.mp h with h' | h'
      · have hn' : n = n₀ := congrArg Prod.fst h'
        refine ⟨agent, ?_⟩
        simp only [insertAgent, if_pos hk]
        rw [hn']
        exact List.mem_cons_self _ _
      · refine ⟨a, ?_⟩
        simp only [insertAgent, if_pos hk]
        exact List.mem_cons_of_mem _ h'
    · simp only [insertAgent, if_neg hk]
      rcases List.mem_cons.mp h with h' | h'
      · exact ⟨a, h' ▸ List.mem_cons_self _ _⟩
      · obtain ⟨a', ha'⟩ := ih h'
        exact ⟨a', List.mem_cons_of_mem _ ha'⟩

theorem mem_pushEntry {tp : List (String × List String)} {team name : String}
    {t : String} {ps : List String} (h : (t, ps) ∈ pushEntry tp team name) :
    ∀ n ∈ ps, (∃ ps', (t, ps') ∈ tp ∧ n ∈ ps') ∨ n = name := by
  induction tp with
  | nil =>
    simp [pushEntry] at h
    intro n hn
    rw [h.2] at hn
    simp at hn
    exact Or.inr hn
  | cons hd rest ih =>
    obtain ⟨t₀, ps₀⟩ := hd
    by_cases hk : t₀ = team
    · subst hk
      simp only [pushEntry, if_pos rfl] at h
      rcases List.mem_cons.mp h with h' | h'
      · have ht : t = t₀ := congrArg Prod.fst h'
        have hps : ps = ps₀ ++ [name] := congrArg Prod.snd h'
        intro n hn
        rw [hps] at hn
        rcases List.mem_append.mp hn with hn' | hn'
        · exact Or.inl ⟨ps₀, by rw [ht]; exact List.mem_cons_self _ _, hn'⟩
        · simp at hn'
          exact Or.inr hn'
      · intro n hn
        exact Or.inl ⟨ps, List.mem_cons_of_mem _ h', hn⟩
    · simp only [pushEntry, if_neg hk] at h
      rcases List.mem_cons.mp h with h' | h'
      · intro n hn
        exact Or.inl ⟨ps, h' ▸ List.mem_cons_self _ _, hn⟩
      · intro n hn
        rcases ih h' n hn with ⟨ps', hps', hn'⟩ | h''
        · exact Or.inl ⟨ps', List.mem_cons_of_mem _ hps', hn'⟩
        · exact Or.inr h''

theorem rowStep_covers {team : String}
    {st st' : List (String × List String) × List (String × String)} {row : PlayerRow}
    (hst : rowStep team st row = .ok st')
    (hcov : ∀ t ps, (t, ps) ∈ st.1 → ∀ n ∈ ps, ∃ a, (n, a) ∈ st.2) :
    ∀ t ps, (t, ps) ∈ st'.1 → ∀ n ∈ ps, ∃ a, (n, a) ∈ st'.2 := by
  unfold rowStep at hst
  cases hn : row.nameText with
  | none => rw [hn] at hst; cases hst
  | some nt =>
    rw [hn] at hst
    cases ha : row.agentTitle with
    | none => simp [ha] at hst
    | some agent =>
      simp only [ha, Except.ok.injEq] at hst
      subst hst
      intro t ps hmem n hnn
      rcases mem_pushEntry hmem n hnn with ⟨ps', hps', hn'⟩ | rfl
      · obtain ⟨a, haa⟩ := hcov t ps' hps' n hn'
        exact mem_insertAgent_of_mem haa _ _
      · exact ⟨agent, mem_insertAgent_self _ _ _⟩

theorem rowsLoop_covers {team : String} {rows : List PlayerRow} :
    ∀ {st st' : List (String × List String) × List (String × String)},
      rowsLoop team st rows = .ok st' →
      (∀ t ps, (t, ps) ∈ st.1 → ∀ n ∈ ps, ∃ a, (n, a) ∈ st.2) →
      ∀ t ps, (t, ps) ∈ st'.1 → ∀ n ∈ ps, ∃ a, (n, a) ∈ st'.2 := by
  induction rows with
  | nil =>
    intro st st' h hcov
    simp only [rowsLoop, Except.ok.injEq] at h
    subst h
    exact hcov
  | cons row rest ih =>
    intro st st' h hcov
    simp only [rowsLoop] at h
    cases hstep : rowStep team st row with
    | error e => rw [hstep] at h; cases h
    | ok st₁ =>
      rw [hstep, except_bind_ok] at h
      exact ih h (rowStep_covers hstep hcov)

theorem tablesLoop_covers {first_team second_team : String} {tbls : List RosterTable} :
    ∀ {i : Nat} {st st' : List (String × List String) × List (String × String)},
      tablesLoop first_team second_team i st tbls = .ok st' →
      (∀ t ps, (t, ps) ∈ st.1 → ∀ n ∈ ps, ∃ a, (n, a) ∈ st.2) →
      ∀ t ps, (t, ps) ∈ st'.1 → ∀ n ∈ ps, ∃ a, (n, a) ∈ st'.2 := by
  induction tbls with
  | nil =>
    intro i st st' h hcov
    simp only [tablesLoop, Except.ok.injEq] at h
    subst h
    exact hcov
  | cons tbl rest ih =>
    intro i st st' h hcov
    simp only [tablesLoop] at h
    cases hrows : rowsLoop (if i = 0 then first_team else second_team) st tbl.rows with
    | error e => rw [hrows] at h; cases h
    | ok st₁ =>
      rw [hrows, except_bind_ok] at h
      exact ih h (rowsLoop_covers hrows hcov)

theorem splitPlayers_origin (wn ln : String) (tp : List (String × List String)) :
    ∀ (init : List String × List String) (n : String),
      (n ∈ (tp.foldl
          (fun wl e =>
            if e.1 = wn then (e.2, wl.2) else if e.1 = ln then (wl.1, e.2) else wl)
          init).1 →
        n ∈ init.1 ∨ ∃ e ∈ tp, n ∈ e.2) ∧
      (n ∈ (tp.foldl
          (fun wl e =>
            if e.1 = wn then (e.2, wl.2) else if e.1 = ln then (wl.1, e.2) else wl)
          init).2 →
        n ∈ init.2 ∨ ∃ e ∈ tp, n ∈ e.2) := by
  induction tp with
  | nil => intro init n; constructor <;> intro h <;> exact Or.inl h
  | cons e rest ih =>
    intro init n
    constructor <;> intro h <;> rw [List.foldl_cons] at h
    · rcases (ih _ n).1 h with h' | ⟨e', he', hn'⟩
      · by_cases h1 : e.1 = wn
        · rw [if_pos h1] at h'
          exact Or.inr ⟨e, List.mem_cons_self _ _, h'⟩
        · rw [if_neg h1] at h'
          by_cases h2 : e.1 = ln
          · rw [if_pos h2] at h'; exact Or.inl h'
          · rw [if_neg h2] at h'; exact Or.inl h'
      · exact Or.inr ⟨e', List.mem_cons_of_mem _ he', hn'⟩
    · rcases (ih _ n).2 h with h' | ⟨e', he', hn'⟩
      · by_cases h1 : e.1 = wn
        · rw [if_pos h1] at h'; exact Or.inl h'
        · rw [if_neg h1] at h'
          by_cases h2 : e.1 = ln
          · rw [if_pos h2] at h'
            exact Or.inr ⟨e, List.mem_cons_self _ _, h'⟩
          · rw [if_neg h2] at h'; exact Or.inl h'
      · exact Or.inr ⟨e', List.mem_cons_of_mem _ he', hn'⟩

theorem mem_of_tabsLoop_ok {tabs : List GameTab} {ms : List Match}
    (h : tabsLoop tabs = .ok ms) :
    ∀ m ∈ ms, ∃ t ∈ tabs, parseTab t = .ok m := by
  induction tabs generalizing ms with
  | nil =>
    simp only [tabsLoop, Except.ok.injEq] at h
    subst h
    simp
  | cons t rest ih =>
    simp only [tabsLoop] at h
    cases hp : parseTab t with
    | error e => rw [hp] at h; cases h
    | ok m₀ =>
      rw [hp, except_bind_ok] at h
      cases hrest : tabsLoop rest with
      | error e => rw [hrest] at h; cases h
      | ok ms' =>
        rw [hrest, except_bind_ok] at h
        simp only [Except.ok.injEq] at h
        subst h
        intro m hm
        rcases List.mem_cons.mp hm with h' | h'
        · exact ⟨t, List.mem_cons_self _ _, h' ▸ hp⟩
        · obtain ⟨t', ht', hp'⟩ := ih hrest m h'
          exact ⟨t', List.mem_cons_of_mem _ ht', hp'⟩

theorem parseTab_agents_total {tab : GameTab} {m : Match}
    (h : parseTab tab = .ok m) :
    ∀ p ∈ m.team_won.players ++ m.team_lost.players, ∃ a, (p, a) ∈ m.agents := by
  unfold parseTab at h
  split at h
  · cases h
  next header hh =>
  split at h
  · cases h
  next mt hmt =>
  cases hteams : teamsLoop 0 initTeamsAcc header.teams with
  | error e => rw [hteams, except_bind_error] at h; cases h
  | ok acc =>
  rw [hteams, except_bind_ok] at h
  cases htables : tablesLoop acc.first_team acc.second_team 0 ([], []) tab.tables with
  | error e => rw [htables, except_bind_error] at h; cases h
  | ok st =>
  rw [htables, except_bind_ok] at h
  simp only [Except.ok.injEq] at h
  subst h
  have hcov : ∀ t ps, (t, ps) ∈ st.1 → ∀ n ∈ ps, ∃ a, (n, a) ∈ st.2 :=
    tablesLoop_covers htables (by simp)
  intro p hp
  simp only [List.mem_append] at hp
  have hsrc : ∃ n, p = Player.mk n ∧ ∃ t ps, (t, ps) ∈ st.1 ∧ n ∈ ps := by
    rcases hp with hp | hp
    · simp only [List.mem_map] at hp
      obtain ⟨n, hn, rfl⟩ := hp
      rcases (splitPlayers_origin acc.team_won acc.team_lost st.1 ([], []) n).1 hn with
        h' | ⟨e', he', hn'⟩
      · simp at h'
      · exact ⟨n, rfl, e'.1, e'.2, he', hn'⟩
    · simp only [List.mem_map] at hp
      obtain ⟨n, hn, rfl⟩ := hp
      rcases (splitPlayers_origin acc.team_won acc.team_lost st.1 ([], []) n).2 hn with
        h' | ⟨e', he', hn'⟩
      · simp at h'
      · exact ⟨n, rfl, e'.1, e'.2, he', hn'⟩
  obtain ⟨n, rfl, t, ps, hts, hn⟩ := hsrc
  obtain ⟨a, ha⟩ := hcov t ps hts n hn
  exact ⟨Agent.mk a, List.mem_map.mpr ⟨(n, a), ha, rfl⟩⟩

/-- C5: if `parse_matches` succeeds on a document, every emitted match's
`agents` mapping has an entry for every player of either roster (stated
under the data-model precondition that player names are unique across the
match's combined rosters). -/
theorem parse_matches_agents_total (page : SeriesPage) (ms : List Match)
    (h : parse_matches page = .ok ms) (m : Match) (hm : m ∈ ms)
    (huniq : ((m.team_won.players ++ m.team_lost.players).map Player.name).Nodup) :
    ∀ p ∈ m.team_won.players ++ m.team_lost.players, ∃ a, (p, a) ∈ m.agents := by
  rw [parse_matches] at h
  obtain ⟨t, _ht, hp⟩ := mem_of_tabsLoop_ok h m hm
  exact parseTab_agents_total hp

end Vlrx

namespace Vlrx

/-- Witness for C4 at a concrete document. -/
theorem parse_matches_score_error_witness :
    (∃ tab ∈ eligibleTabs wBadPage, scoreUnparsable tab = true) ∧
      ((∃ e, parse_matches wBadPage = .error e) ∧
        ∀ ms, parse_matches wBadPage ≠ .ok ms) :=
  ⟨by decide, parse_matches_score_error wBadPage (by decide)⟩

/-- Witness for C5 at a concrete document. -/
theorem parse_matches_agents_total_witness :
    (parse_matches wGoodPage = .ok [wParsed] ∧ wParsed ∈ [wParsed] ∧
      ((wParsed.team_won.players ++ wParsed.team_lost.players).map Player.name).Nodup) ∧
      ∀ p ∈ wParsed.team_won.players ++ wParsed.team_lost.players,
        ∃ a, (p, a) ∈ wParsed.agents := by
  have hok : parse_matches wGoodPage = .ok [wParsed] := rfl
  exact ⟨⟨hok, List.mem_singleton.mpr rfl, by decide⟩,
    parse_matches_agents_total wGoodPage [wParsed] hok wParsed
      (List.mem_singleton.mpr rfl) (by decide)⟩

end Vlrx

namespace Vlrx

/-! ## Crawler lemmas -/

theorem adjacentFetchOk_sleep_left (b : Ev) : adjacentFetchOk .sleep b := by
  intro h
  simp [isFetch] at h

theorem adjacentFetchOk_sleep_right (a : Ev) : adjacentFetchOk a .sleep := by
  intro _ h
  simp [isFetch] at h

theorem parse_event_aux_head (web : Web) (bs : List String) :
    (parse_event_aux web bs).1 = [] ∨
      ∃ s t', (parse_event_aux web bs).1 = Ev.fetchSeries s :: t' := by
  cases bs with
  | nil => exact Or.inl rfl
  | cons b rest =>
    right
    unfold parse_event_aux
    split
    · exact ⟨b, [], rfl⟩
    · split
      · exact ⟨b, [], rfl⟩
      · exact ⟨b, _, rfl⟩

theorem parse_event_aux_chain (web : Web) (bs : List String) :
    List.Chain' adjacentFetchOk (parse_event_aux web bs).1 := by
  induction bs with
  | nil => simp [parse_event_aux]
  | cons b rest ih =>
    unfold parse_event_aux
    split
    · simp
    · split
      · simp
      · rw [List.chain'_cons]
        exact ⟨adjacentFetchOk_sleep_right _,
          List.chain'_cons'.mpr ⟨fun y _ => adjacentFetchOk_sleep_left y, ih⟩⟩

theorem goPages_head (web : Web) (ps : List String) :
    (goPages web ps).1 = [] ∨ ∃ t', (goPages web ps).1 = Ev.sleep :: t' := by
  cases ps with
  | nil => exact Or.inl rfl
  | cons p rest =>
    right
    unfold goPages
    split
    · exact ⟨_, rfl⟩
    · split
      · exact ⟨_, rfl⟩
      · exact ⟨_, rfl⟩

theorem goPages_chain (web : Web) (ps : List String) :
    List.Chain' adjacentFetchOk (goPages web ps).1 := by
  induction ps with
  | nil => simp [goPages]
  | cons e rest ih =>
    unfold goPages
    split
    · exact List.chain'_cons.mpr ⟨adjacentFetchOk_sleep_left _, List.chain'_singleton _⟩
    · split
      · rw [List.chain'_cons]
        refine ⟨adjacentFetchOk_sleep_left _, ?_⟩
        rw [List.chain'_cons']
        refine ⟨?_, parse_event_aux_chain web _⟩
        intro y hy
        rcases parse_event_aux_head web _ with h0 | ⟨s, t', h0⟩
        · unfold parse_event at hy
          rw [h0] at hy
          simp at hy
        · unfold parse_event at hy
          rw [h0] at hy
          simp at hy
          subst hy
          intro _ _
          exact ⟨⟨e, rfl⟩, ⟨s, rfl⟩⟩
      · rw [List.chain'_cons]
        refine ⟨adjacentFetchOk_sleep_left _, ?_⟩
        rw [List.chain'_cons']
        constructor
        · intro y hy
          rcases parse_event_aux_head web _ with h0 | ⟨s, t', h0⟩
          · unfold parse_event at hy
            rw [h0] at hy
            simp only [List.nil_append] at hy
            rcases goPages_head web rest with h1 | ⟨t'', h1⟩
            · rw [h1] at hy; simp at hy
            · rw [h1] at hy
              simp at hy
              subst hy
              exact adjacentFetchOk_sleep_right _
          · unfold parse_event at hy
            rw [h0] at hy
            simp at hy
            subst hy
            intro _ _
            exact ⟨⟨e, rfl⟩, ⟨s, rfl⟩⟩
        · rw [List.chain'_append]
          refine ⟨parse_event_aux_chain web _, ih, ?_⟩
          intro x _hx y hy
          rcases goPages_head web rest with h1 | ⟨t'', h1⟩
          · rw [h1] at hy; simp at hy
          · rw [h1] at hy
            simp at hy
            subst hy
            exact adjacentFetchOk_sleep_right _

/-- C1 (amended): in every crawl trace, the fixed delay separates every
pair of consecutive fetches with one exception: the first series fetch of
a sub-navigation page immediately follows that page's fetch. Equivalently,
two adjacent events can only both be fetches when the first is a
sub-navigation fetch and the second a series fetch. -/
theorem scrape_url_delay_amended (web : Web) (url : String) :
    List.Chain' adjacentFetchOk (scrape_url web url).1 := by
  unfold scrape_url
  split
  · simp
  · split
    · rw [List.chain'_cons]
      exact ⟨adjacentFetchOk_sleep_right _,
        List.chain'_cons'.mpr
          ⟨fun y _ => adjacentFetchOk_sleep_left y, parse_event_aux_chain web _⟩⟩
    · rw [List.chain'_cons]
      refine ⟨adjacentFetchOk_sleep_right _, ?_⟩
      rw [List.chain'_cons']
      refine ⟨fun y _ => adjacentFetchOk_sleep_left y, ?_⟩
      rw [List.chain'_append]
      refine ⟨parse_event_aux_chain web _, goPages_chain web _, ?_⟩
      intro x _hx y hy
      rcases goPages_head web _ with h1 | ⟨t'', h1⟩
      · rw [h1] at hy; simp at hy
      · rw [h1] at hy
        simp at hy
        subst hy
        exact adjacentFetchOk_sleep_right _

/-- C1 counterexample: on a concrete web whose root has one sub-navigation
link leading to a page with one bracket item, the crawl trace contains the
sub-navigation fetch immediately followed by the series fetch with no delay
between them, refuting the claim that a delay precedes every fetch after
the first. -/
theorem scrape_url_delay_counterexample :
    ¬ delayRespecting (scrape_url wWeb "r").1 := by
  intro h
  unfold delayRespecting at h
  have htr : (scrape_url wWeb "r").1 =
      [Ev.fetchRoot "r", Ev.sleep, Ev.sleep, Ev.fetchSubnav "/ev",
        Ev.fetchSeries "/s1", Ev.sleep] := rfl
  rw [htr] at h
  obtain ⟨-, h⟩ := List.chain'_cons.mp h
  obtain ⟨-, h⟩ := List.chain'_cons.mp h
  obtain ⟨-, h⟩ := List.chain'_cons.mp h
  obtain ⟨h4, -⟩ := List.chain'_cons.mp h
  exact h4 ⟨rfl, rfl⟩

end Vlrx

namespace Vlrx

theorem event_pages_no_showmatch {doc : Page} {e : String}
    (h : e ∈ event_pages doc) : containsSub e "showmatch" = false := by
  unfold event_pages at h
  obtain ⟨x, _hx, hfx⟩ := List.mem_filterMap.mp h
  by_cases hc : containsSub x.href "showmatch"
  · rw [if_pos hc] at hfx
    cases hfx
  · rw [if_neg hc] at hfx
    injection hfx with h'
    subst h'
    simpa using hc

theorem parse_event_aux_no_subnav (web : Web) (bs : List String) (e : String) :
    Ev.fetchSubnav e ∉ (parse_event_aux web bs).1 := by
  induction bs with
  | nil => simp [parse_event_aux]
  | cons b rest ih =>
    unfold parse_event_aux
    split
    · simp
    · split
      · simp
      · simp [ih]

theorem goPages_subnav_mem {web : Web} {ps : List String} {e : String}
    (h : Ev.fetchSubnav e ∈ (goPages web ps).1) : e ∈ ps := by
  induction ps with
  | nil => simp [goPages] at h
  | cons p rest ih =>
    unfold goPages at h
    split at h
    · simp at h
      exact h ▸ List.mem_cons_self _ _
    · split at h
      · simp at h
        rcases h with h | h
        · exact h ▸ List.mem_cons_self _ _
        · exact absurd h (parse_event_aux_no_subnav _ _ _)
      · simp at h
        rcases h with h | h | h
        · exact h ▸ List.mem_cons_self _ _
        · exact absurd h (parse_event_aux_no_subnav _ _ _)
        · exact List.mem_cons_of_mem _ (ih h)

theorem scrape_url_subnav_clean {web : Web} {url e : String}
    (h : Ev.fetchSubnav e ∈ (scrape_url web url).1) :
    containsSub e "showmatch" = false := by
  unfold scrape_url at h
  split at h
  · simp at h
  · split at h
    · simp at h
      exact absurd h (parse_event_aux_no_subnav _ _ _)
    · simp at h
      rcases h with h | h
      · exact absurd h (parse_event_aux_no_subnav _ _ _)
      · exact event_pages_no_showmatch (goPages_subnav_mem h)

/-- C8: a sub-navigation link whose target contains `"showmatch"` is never
fetched by the crawler: no sub-navigation fetch event for such a target
occurs in any crawl trace. -/
theorem scrape_url_no_showmatch (web : Web) (url e : String)
    (hshow : containsSub e "showmatch" = true) :
    Ev.fetchSubnav e ∉ (scrape_url web url).1 := by
  intro h
  rw [scrape_url_subnav_clean h] at hshow
  cases hshow

/-- Witness for C8 at a concrete web with a `"showmatch"` link. -/
theorem scrape_url_no_showmatch_witness :
    containsSub "/showmatch-final" "showmatch" = true ∧
      Ev.fetchSubnav "/showmatch-final" ∉ (scrape_url wWeb2 "r").1 :=
  ⟨by decide, scrape_url_no_showmatch wWeb2 "r" "/showmatch-final" (by decide)⟩

end Vlrx

namespace Vlrx

/-! ## JSON round-trip lemmas -/

theorem playersFromJson_map (ps : List Player) :
    playersFromJson (ps.map Player.toJson) = .ok ps := by
  induction ps with
  | nil => rfl
  | cons p rest ih =>
    simp [playersFromJson, Player.toJson, Player.fromJson, Json.asString,
      except_bind_ok, ih]

theorem team_fromJson_toJson (t : Team) : Team.fromJson (Team.toJson t) = .ok t := by
  simp [Team.fromJson, Team.toJson, getField, Json.asString, playersFromJson_map,
    except_bind_ok]

theorem insertPA_append {ag : List (Player × Agent)} {p : Player} (a : Agent)
    (h : p ∉ ag.map (fun kv => kv.1)) : insertPA ag p a = ag ++ [(p, a)] := by
  induction ag with
  | nil => rfl
  | cons kv rest ih =>
    simp only [List.map_cons, List.mem_cons] at h
    push_neg at h
    obtain ⟨h1, h2⟩ := h
    simp only [insertPA, if_neg (Ne.symm h1)]
    rw [ih h2]
    simp

theorem agentsFromJson_round (ag : List (Player × Agent)) :
    ∀ acc : List (Player × Agent),
      (((acc ++ ag).map (fun kv => kv.1)).Nodup) →
      agentsFromJson (ag.map (fun kv => (kv.1.name, Agent.toJson kv.2))) acc =
        .ok (acc ++ ag) := by
  induction ag with
  | nil => intro acc _; simp [agentsFromJson]
  | cons kv rest ih =>
    intro acc h
    have hnotin : kv.1 ∉ acc.map (fun kv => kv.1) := by
      rw [List.map_append] at h
      rw [List.nodup_append] at h
      intro hmem
      exact h.2.2 hmem (by simp)
    simp only [List.map_cons]
    unfold agentsFromJson
    rw [show Agent.fromJson (Agent.toJson kv.2) = .ok kv.2 from rfl]
    rw [except_bind_ok]
    rw [show ((⟨kv.1.name⟩ : Player) : Player) = kv.1 from rfl]
    rw [insertPA_append _ hnotin]
    have h' : (((acc ++ [kv]) ++ rest).map (fun kv => kv.1)).Nodup := by
      rw [← List.append_cons]
      exact h
    rw [show ((kv.1, kv.2) : Player × Agent) = kv from rfl]
    rw [ih (acc ++ [kv]) h']
    rw [← List.append_cons]

theorem match_fromJson_toJson (m : Match)
    (hkeys : (m.agents.map (fun kv => kv.1)).Nodup)
    (hws : m.won_score < 2 ^ 32) (hls : m.lost_score < 2 ^ 32) :
    Match.fromJson (Match.toJson m) = .ok m := by
  have hag : agentsFromJson (m.agents.map (fun kv => (kv.1.name, Agent.toJson kv.2))) [] =
      .ok m.agents := by
    have := agentsFromJson_round m.agents [] (by simpa using hkeys)
    simpa using this
  have hws' : m.won_score < 4294967296 := by simpa using hws
  have hls' : m.lost_score < 4294967296 := by simpa using hls
  unfold Match.toJson Match.fromJson
  simp [getField, Map.fromJson, Map.toJson, Json.asString, Json.asNum,
    except_bind_ok, team_fromJson_toJson, hws', hls', agentsToJson, hag]

theorem matchListFromJson_map (ms : List Match)
    (hwf : ∀ m ∈ ms, (m.agents.map (fun kv => kv.1)).Nodup ∧
      m.won_score < 2 ^ 32 ∧ m.lost_score < 2 ^ 32) :
    matchListFromJson (ms.map Match.toJson) = .ok ms := by
  induction ms with
  | nil => rfl
  | cons m rest ih =>
    obtain ⟨h1, h2, h3⟩ := hwf m (List.mem_cons_self _ _)
    have hrest := ih (fun m' hm' => hwf m' (List.mem_cons_of_mem _ hm'))
    simp [matchListFromJson, match_fromJson_toJson m h1 h2 h3, hrest, except_bind_ok]

/-- C9: serializing a `Match` sequence to the persisted JSON format and
deserializing it back yields the same sequence field for field, and `Map`,
`Agent` and `Player` values serialize as bare name strings, not objects.
(Stated under the Rust data-model invariants: `agents` is a `HashMap`, so
its keys are distinct, and the scores are `u32` values.) -/
theorem matches_json_roundtrip (ms : List Match)
    (hwf : ∀ m ∈ ms, (m.agents.map (fun kv => kv.1)).Nodup ∧
      m.won_score < 2 ^ 32 ∧ m.lost_score < 2 ^ 32) :
    matchesFromJson (matchesToJson ms) = .ok ms ∧
      (∀ mp : Map, Map.toJson mp = .str mp.name) ∧
      (∀ a : Agent, Agent.toJson a = .str a.name) ∧
      (∀ p : Player, Player.toJson p = .str p.name) := by
  refine ⟨?_, fun _ => rfl, fun _ => rfl, fun _ => rfl⟩
  unfold matchesToJson matchesFromJson
  exact matchListFromJson_map ms hwf

/-- Witness for C9 at a concrete match list. -/
theorem matches_json_roundtrip_witness :
    (∀ m ∈ [wMatchA], (m.agents.map (fun kv => kv.1)).Nodup ∧
      m.won_score < 2 ^ 32 ∧ m.lost_score < 2 ^ 32) ∧
      (matchesFromJson (matchesToJson [wMatchA]) = .ok [wMatchA] ∧
        (∀ mp : Map, Map.toJson mp = .str mp.name) ∧
        (∀ a : Agent, Agent.toJson a = .str a.name) ∧
        (∀ p : Player, Player.toJson p = .str p.name)) :=
  ⟨by decide, matches_json_roundtrip [wMatchA] (by decide)⟩

end Vlrx
